import Mathlib

/-!
Shallow embedding of the in-memory banking engine in `src/main.py`
(accounts, ledger, idempotency cache, rate limiter, transfer engine),
together with proofs of the specified properties.

Modelling conventions:
* Python dicts become functions `String → Option β` (absent key = `none`).
* `time.time()` / `datetime.utcnow()` become an explicit `now : Int`
  parameter passed to each operation (seconds; `dateOf` buckets a
  timestamp into its UTC calendar day).
* `uuid4()` becomes a fresh-counter `nextTx` drawn from the state; only
  freshness/equality of transaction ids matters to the spec.
* `raise HTTPException` becomes an error outcome returned with the
  unchanged-so-far state (Python exceptions do not roll back mutations).
* `threading.Lock` is not reentrant: `with get_lock(first), get_lock(second)`
  with `first == second` blocks forever; this is modelled by the
  `deadlock` outcome.  The list of successfully acquired locks is
  returned so that lock-discipline claims can be stated.
-/

namespace Banking

/-- `PER_TRANSFER_MAX = 10_000` from `src/main.py`. -/
def PER_TRANSFER_MAX : Int := 10000

/-- `DAILY_TRANSFER_LIMIT = 25_000` from `src/main.py`. -/
def DAILY_TRANSFER_LIMIT : Int := 25000

/-- `IDEMPOTENCY_TTL_SECONDS = 60 * 60 * 24` from `src/main.py`. -/
def IDEMPOTENCY_TTL_SECONDS : Int := 60 * 60 * 24

/-- `RATE_LIMIT_PER_MINUTE = 10` from `src/main.py`. -/
def RATE_LIMIT_PER_MINUTE : Nat := 10

/-- The `{"tx_id": ..., "status": ...}` response of a transfer. -/
structure TxResponse where
  tx_id : Nat
  status : String
deriving Repr, DecidableEq

/-- One ledger entry, as appended by `deposit`, `withdraw` and `transfer`. -/
structure LedgerEntry where
  tx_id : Nat
  type : String
  amount : Int
  balance_after : Int
  timestamp : Int
deriving Repr, DecidableEq

/-- One record of `idempotency_store`: `{response, expires_at}`. -/
structure IdemRecord where
  response : TxResponse
  expires_at : Int
deriving Repr, DecidableEq

/-- The whole mutable module state of `src/main.py`:
`accounts`, `ledger`, `idempotency_store`, `rate_limits`, plus the
fresh-id counter modelling `uuid4`. -/
structure BankState where
  accounts : String → Option Int
  ledger : String → Option (List LedgerEntry)
  idempotency_store : String → Option IdemRecord
  rate_limits : String → Option (List Int)
  nextTx : Nat

/-- The empty starting state (all dicts empty). -/
def initState : BankState :=
  { accounts := fun _ => none
    ledger := fun _ => none
    idempotency_store := fun _ => none
    rate_limits := fun _ => none
    nextTx := 0 }

/-- `d[k] = v` on a dict modelled as a function. -/
def updFn {β : Type} (f : String → Option β) (k : String) (v : β) :
    String → Option β :=
  fun a => if a = k then some v else f a

/-- The errors raised by the engine (`HTTPException` details). -/
inductive BankError where
  | insufficientFunds
  | perTransferLimit
  | dailyLimit
  | rateLimited
deriving Repr, DecidableEq

/-- What a call to `/transfer` does: return a response, raise an error,
or block forever on lock acquisition. -/
inductive TransferOutcome where
  | success (resp : TxResponse)
  | failure (e : BankError)
  | deadlock
deriving Repr, DecidableEq

/-- Result of a `/transfer` call: its outcome, the account locks it
acquired (in acquisition order), and the state it leaves behind. -/
structure TransferResult where
  outcome : TransferOutcome
  locksAcquired : List String
  state : BankState

/-- `ensure_account` from `src/main.py`: lazily create the account
(balance 0) and its empty ledger. -/
def ensure_account (account_id : String) (s : BankState) : BankState :=
  if (s.accounts account_id).isSome then s
  else
    { s with
      accounts := updFn s.accounts account_id 0
      ledger := updFn s.ledger account_id [] }

/-- `check_rate_limit` from `src/main.py`.  Returns `false` (HTTP 429)
without mutation when the pruned window already holds
`RATE_LIMIT_PER_MINUTE` timestamps, else records `now`. -/
def check_rate_limit (now : Int) (account_id : String) (s : BankState) :
    Bool × BankState :=
  let timestamps :=
    ((s.rate_limits account_id).getD []).filter (fun t => now - t < 60)
  if RATE_LIMIT_PER_MINUTE ≤ timestamps.length then
    (false, s)
  else
    (true,
      { s with
        rate_limits := updFn s.rate_limits account_id (timestamps ++ [now]) })

/-- `check_idempotency` from `src/main.py`: the cached response, if the
key is present and `expires_at > time.time()`. -/
def check_idempotency (now : Int) (key : String) (s : BankState) :
    Option TxResponse :=
  match s.idempotency_store key with
  | some record => if now < record.expires_at then some record.response else none
  | none => none

/-- `store_idempotency` from `src/main.py`. -/
def store_idempotency (now : Int) (key : String) (response : TxResponse)
    (s : BankState) : BankState :=
  { s with
    idempotency_store :=
      updFn s.idempotency_store key ⟨response, now + IDEMPOTENCY_TTL_SECONDS⟩ }

/-- `datetime.date()` of a UTC timestamp: its calendar-day bucket. -/
def dateOf (t : Int) : Int := t / 86400

/-- `get_daily_transfer_total` from `src/main.py`: sum of
`abs(entry["amount"])` over the account's `transfer_out` entries dated
today (`today = datetime.utcnow().date()`). -/
def get_daily_transfer_total (now : Int) (account_id : String)
    (s : BankState) : Int :=
  let today := dateOf now
  ((s.ledger account_id).getD []).foldl
    (fun total entry =>
      if entry.type = "transfer_out" ∧ dateOf entry.timestamp = today then
        total + |entry.amount|
      else total)
    0

/-- `deposit` from `src/main.py` (always succeeds; one lock, held for
the mutation plus append). -/
def deposit (now : Int) (account_id : String) (amount : Int)
    (s : BankState) : LedgerEntry × BankState :=
  let s := ensure_account account_id s
  let newBal := (s.accounts account_id).getD 0 + amount
  let entry : LedgerEntry :=
    { tx_id := s.nextTx, type := "deposit", amount := amount
      balance_after := newBal, timestamp := now }
  (entry,
    { s with
      accounts := updFn s.accounts account_id newBal
      ledger :=
        updFn s.ledger account_id (((s.ledger account_id).getD []) ++ [entry])
      nextTx := s.nextTx + 1 })

/-- `withdraw` from `src/main.py`: HTTP 400 `Insufficient funds` when
`accounts[id] < amount`, else debit and append a negative entry. -/
def withdraw (now : Int) (account_id : String) (amount : Int)
    (s : BankState) : Except BankError LedgerEntry × BankState :=
  let s := ensure_account account_id s
  if (s.accounts account_id).getD 0 < amount then
    (.error .insufficientFunds, s)
  else
    let newBal := (s.accounts account_id).getD 0 - amount
    let entry : LedgerEntry :=
      { tx_id := s.nextTx, type := "withdrawal", amount := -amount
        balance_after := newBal, timestamp := now }
    (.ok entry,
      { s with
        accounts := updFn s.accounts account_id newBal
        ledger :=
          updFn s.ledger account_id (((s.ledger account_id).getD []) ++ [entry])
        nextTx := s.nextTx + 1 })

/-- Lexicographic (code-point) comparison of char lists, `as <= bs`;
written structurally so that it evaluates inside the kernel. -/
def lexLeb : List Char → List Char → Bool
  | [], _ => true
  | _ :: _, [] => false
  | a :: as, b :: bs => if a < b then true else if b < a then false else lexLeb as bs

/-- Python's `<=` on strings: lexicographic by Unicode code point. -/
def strLeb (a b : String) : Bool := lexLeb a.data b.data

/-- `first, second = sorted([from_account, to_account])` on two strings:
Python's lexicographic (code-point) order on strings. -/
def lockOrder (a b : String) : String × String :=
  if strLeb a b then (a, b) else (b, a)

/-- The part of `transfer` from `src/main.py` after the per-transfer
check and the idempotency lookup: account creation, rate limiting, lock
acquisition, the in-lock checks and the double mutation, then (outside
the locks) the idempotency store. -/
def transferCore (now : Int) (idempotency_key : Option String)
    (from_account to_account : String) (amount : Int) (s : BankState) :
    TransferResult :=
  let s := ensure_account from_account s
  let s := ensure_account to_account s
  let rl := check_rate_limit now from_account s
  if rl.1 = false then
    ⟨.failure .rateLimited, [], rl.2⟩
  else
    let s := rl.2
    let fs := lockOrder from_account to_account
    if fs.1 = fs.2 then
      -- `with get_lock(first), get_lock(second)`: the second `acquire`
      -- on the same non-reentrant lock blocks forever.
      ⟨.deadlock, [fs.1], s⟩
    else if DAILY_TRANSFER_LIMIT <
        get_daily_transfer_total now from_account s + amount then
      ⟨.failure .dailyLimit, [fs.1, fs.2], s⟩
    else if (s.accounts from_account).getD 0 < amount then
      ⟨.failure .insufficientFunds, [fs.1, fs.2], s⟩
    else
      let s1 :=
        { s with
          accounts :=
            updFn s.accounts from_account
              ((s.accounts from_account).getD 0 - amount) }
      let s2 :=
        { s1 with
          accounts :=
            updFn s1.accounts to_account
              ((s1.accounts to_account).getD 0 + amount) }
      let tx_id := s2.nextTx
      let outEntry : LedgerEntry :=
        { tx_id := tx_id, type := "transfer_out", amount := -amount
          balance_after := (s2.accounts from_account).getD 0, timestamp := now }
      let s3 :=
        { s2 with
          ledger :=
            updFn s2.ledger from_account
              (((s2.ledger from_account).getD []) ++ [outEntry]) }
      let inEntry : LedgerEntry :=
        { tx_id := tx_id, type := "transfer_in", amount := amount
          balance_after := (s3.accounts to_account).getD 0, timestamp := now }
      let s4 :=
        { s3 with
          ledger :=
            updFn s3.ledger to_account
              (((s3.ledger to_account).getD []) ++ [inEntry])
          nextTx := s3.nextTx + 1 }
      let response : TxResponse := { tx_id := tx_id, status := "success" }
      let s5 :=
        match idempotency_key with
        | some key => store_idempotency now key response s4
        | none => s4
      ⟨.success response, [fs.1, fs.2], s5⟩

/-- `transfer` from `src/main.py`: the per-transfer-limit check first,
then the idempotency lookup, then `transferCore`.  The header is
`Header(None)` and both guards are `if idempotency_key:`, so an absent
and an empty-string key behave identically (both skip the lookup and the
store, and an empty key can therefore never be stored); `none` models
both. -/
def transfer (now : Int) (idempotency_key : Option String)
    (from_account to_account : String) (amount : Int) (s : BankState) :
    TransferResult :=
  if PER_TRANSFER_MAX < amount then
    ⟨.failure .perTransferLimit, [], s⟩
  else
    match idempotency_key with
    | some key =>
      match check_idempotency now key s with
      | some cached => ⟨.success cached, [], s⟩
      | none => transferCore now idempotency_key from_account to_account amount s
    | none => transferCore now idempotency_key from_account to_account amount s

/-- Observable balance of an account (absent accounts read as 0, as the
API lazily creates them at 0). -/
def bal (s : BankState) (a : String) : Int := (s.accounts a).getD 0

/-- Observable ledger of an account (absent accounts read as empty). -/
def entriesOf (s : BankState) (a : String) : List LedgerEntry :=
  (s.ledger a).getD []

/-- The pruned rate window: timestamps within the trailing 60 seconds. -/
def prunedWindow (now : Int) (account_id : String) (s : BankState) :
    List Int :=
  ((s.rate_limits account_id).getD []).filter (fun t => now - t < 60)

/-- Number of rate-limiter timestamps in the trailing 60 seconds. -/
def windowCount (now : Int) (account_id : String) (s : BankState) : Nat :=
  (prunedWindow now account_id s).length

/-- One caller-facing mutating operation, with its clock reading. -/
inductive Op where
  | depositOp (now : Int) (account : String) (amount : Int)
  | withdrawOp (now : Int) (account : String) (amount : Int)
  | transferOp (now : Int) (key : Option String)
      (from_account to_account : String) (amount : Int)

/-- The clock reading at which an operation runs. -/
def opTime : Op → Int
  | .depositOp now _ _ => now
  | .withdrawOp now _ _ => now
  | .transferOp now _ _ _ _ => now

/-- The state transition of one operation (its response is dropped). -/
def applyOp : Op → BankState → BankState
  | .depositOp now a m, s => (deposit now a m s).2
  | .withdrawOp now a m, s => (withdraw now a m s).2
  | .transferOp now k f t m, s => (transfer now k f t m s).state

/-- Run a sequence of operations from the empty state. -/
def run (ops : List Op) : BankState :=
  ops.foldl (fun s op => applyOp op s) initState

/-- Conservation: each account's balance is the sum of the signed
amounts of its ledger entries. -/
def Conserved (s : BankState) : Prop :=
  ∀ a, ((entriesOf s a).map LedgerEntry.amount).sum = bal s a

/-- Modelled from the spec (§4.2): `daily_outbound_total` as worded —
the sum of the absolute values of the `transfer_out` entries dated
`asOfDay`, all other kinds excluded.  Stated over a plain entry list to
be compared with `get_daily_transfer_total` from the source. -/
def daily_outbound_total_spec (asOfDay : Int) (entries : List LedgerEntry) :
    Int :=
  ((entries.filter
      (fun e => e.type = "transfer_out" ∧ dateOf e.timestamp = asOfDay)).map
    (fun e => |e.amount|)).sum

/-- Well-formedness: `accounts` and `ledger` always hold the same keys
(`ensure_account` creates both together and nothing deletes). -/
def WF (s : BankState) : Prop :=
  ∀ a, (s.accounts a).isSome ↔ (s.ledger a).isSome

/-- The state right after `transfer` has ensured both accounts and the
rate limiter has recorded the attempt (or rejected it unchanged). -/
def afterRate (now : Int) (f t : String) (s : BankState) : BankState :=
  (check_rate_limit now f (ensure_account t (ensure_account f s))).2

/-- The state a successful transfer leaves behind (proved equal to the
code's result in `core_success`): both balances moved, the paired
`transfer_out`/`transfer_in` entries appended, the transaction counter
advanced, and (key supplied) the response cached. -/
def successState (now : Int) (k : Option String) (f t : String) (m : Int)
    (s : BankState) : BankState :=
  let A := afterRate now f t s
  let outE : LedgerEntry :=
    { tx_id := s.nextTx, type := "transfer_out", amount := -m
      balance_after := bal s f - m, timestamp := now }
  let inE : LedgerEntry :=
    { tx_id := s.nextTx, type := "transfer_in", amount := m
      balance_after := bal s t + m, timestamp := now }
  let s4 : BankState :=
    { A with
      accounts := updFn (updFn A.accounts f (bal s f - m)) t (bal s t + m)
      ledger :=
        updFn (updFn A.ledger f (entriesOf s f ++ [outE])) t
          (entriesOf s t ++ [inE])
      nextTx := s.nextTx + 1 }
  match k with
  | some key => store_idempotency now key ⟨s.nextTx, "success"⟩ s4
  | none => s4

/-! ### Basic observation lemmas -/

theorem updFn_self {β : Type} (f : String → Option β) (k : String) (v : β) :
    updFn f k v k = some v := by
  simp [updFn]

theorem updFn_ne {β : Type} (f : String → Option β) (k a : String) (v : β)
    (h : a ≠ k) : updFn f k v a = f a := by
  simp [updFn, h]

theorem bal_ensure (b : String) (s : BankState) (a : String) :
    bal (ensure_account b s) a = bal s a := by
  unfold bal ensure_account updFn
  by_cases hs : (s.accounts b).isSome
  · simp [hs]
  · simp only [hs, Bool.false_eq_true, if_false]
    by_cases hab : a = b
    · subst hab
      simp [Option.not_isSome_iff_eq_none.mp hs]
    · simp [hab]

theorem WF_congr {s s' : BankState} (ha : s'.accounts = s.accounts)
    (hl : s'.ledger = s.ledger) (h : WF s) : WF s' := by
  intro a
  rw [ha, hl]
  exact h a

theorem WF_initState : WF initState := by
  intro a
  simp [initState]

theorem entriesOf_ensure {s : BankState} (hwf : WF s) (b : String)
    (a : String) : entriesOf (ensure_account b s) a = entriesOf s a := by
  unfold entriesOf ensure_account updFn
  by_cases hs : (s.accounts b).isSome
  · simp [hs]
  · simp only [hs, Bool.false_eq_true, if_false]
    by_cases hab : a = b
    · subst hab
      have hl : s.ledger a = none := by
        rcases hl : s.ledger a with _ | l
        · rfl
        · exact absurd ((hwf a).mpr (by simp [hl])) hs
      simp [hl]
    · simp [hab]

theorem WF_ensure {s : BankState} (hwf : WF s) (b : String) :
    WF (ensure_account b s) := by
  unfold ensure_account
  by_cases hs : (s.accounts b).isSome
  · simpa [hs] using hwf
  · simp only [hs, Bool.false_eq_true, if_false]
    intro a
    by_cases hab : a = b
    · subst hab
      simp [updFn]
    · simp only [updFn, hab, if_neg hab]
      exact hwf a

theorem ensure_idem (b : String) (s : BankState) :
    (ensure_account b s).idempotency_store = s.idempotency_store := by
  unfold ensure_account
  split <;> rfl

theorem ensure_rate (b : String) (s : BankState) :
    (ensure_account b s).rate_limits = s.rate_limits := by
  unfold ensure_account
  split <;> rfl

theorem ensure_nextTx (b : String) (s : BankState) :
    (ensure_account b s).nextTx = s.nextTx := by
  unfold ensure_account
  split <;> rfl

theorem prunedWindow_congr {s s' : BankState}
    (h : s'.rate_limits = s.rate_limits) (now : Int) (a : String) :
    prunedWindow now a s' = prunedWindow now a s := by
  unfold prunedWindow
  rw [h]

theorem windowCount_congr {s s' : BankState}
    (h : s'.rate_limits = s.rate_limits) (now : Int) (a : String) :
    windowCount now a s' = windowCount now a s := by
  unfold windowCount
  rw [prunedWindow_congr h]

/-! ### `check_rate_limit` lemmas -/

theorem crl_accounts (now : Int) (a : String) (s : BankState) :
    ((check_rate_limit now a s).2).accounts = s.accounts := by
  simp only [check_rate_limit]
  split <;> rfl

theorem crl_ledger (now : Int) (a : String) (s : BankState) :
    ((check_rate_limit now a s).2).ledger = s.ledger := by
  simp only [check_rate_limit]
  split <;> rfl

theorem crl_idem (now : Int) (a : String) (s : BankState) :
    ((check_rate_limit now a s).2).idempotency_store = s.idempotency_store := by
  simp only [check_rate_limit]
  split <;> rfl

theorem crl_nextTx (now : Int) (a : String) (s : BankState) :
    ((check_rate_limit now a s).2).nextTx = s.nextTx := by
  simp only [check_rate_limit]
  split <;> rfl

theorem crl_true_iff (now : Int) (a : String) (s : BankState) :
    (check_rate_limit now a s).1 = true ↔
      windowCount now a s < RATE_LIMIT_PER_MINUTE := by
  simp only [check_rate_limit, windowCount, prunedWindow]
  split
  · next h =>
    simp [Nat.not_lt.mpr h]
  · next h =>
    simp [Nat.lt_of_not_le h]

theorem crl_reject {now : Int} {a : String} {s : BankState}
    (h : RATE_LIMIT_PER_MINUTE ≤ windowCount now a s) :
    check_rate_limit now a s = (false, s) := by
  unfold windowCount prunedWindow at h
  simp only [check_rate_limit]
  rw [if_pos h]

theorem crl_record {now : Int} {a : String} {s : BankState}
    (h : windowCount now a s < RATE_LIMIT_PER_MINUTE) :
    check_rate_limit now a s =
      (true,
        { s with
          rate_limits :=
            updFn s.rate_limits a (prunedWindow now a s ++ [now]) }) := by
  unfold windowCount at h
  unfold prunedWindow at h ⊢
  simp only [check_rate_limit]
  rw [if_neg (Nat.not_le.mpr h)]

/-! ### `get_daily_transfer_total` lemmas -/

theorem foldl_daily (today : Int) (l : List LedgerEntry) (acc : Int) :
    l.foldl
        (fun total entry =>
          if entry.type = "transfer_out" ∧ dateOf entry.timestamp = today then
            total + |entry.amount|
          else total)
        acc =
      acc +
        ((l.filter
              (fun e =>
                e.type = "transfer_out" ∧ dateOf e.timestamp = today)).map
            (fun e => |e.amount|)).sum := by
  induction l generalizing acc with
  | nil => simp
  | cons e l ih =>
    by_cases he : e.type = "transfer_out" ∧ dateOf e.timestamp = today
    · simp only [List.foldl_cons, List.filter_cons, he, if_pos he]
      rw [ih]
      simp only [decide_eq_true_eq] at *
      simp [he, add_assoc, add_comm, add_left_comm]
    · simp only [List.foldl_cons, List.filter_cons, he, if_neg he]
      rw [ih]
      simp [he]

theorem gdt_eq_spec (now : Int) (a : String) (s : BankState) :
    get_daily_transfer_total now a s =
      daily_outbound_total_spec (dateOf now) (entriesOf s a) := by
  unfold get_daily_transfer_total daily_outbound_total_spec entriesOf
  rw [foldl_daily]
  simp

theorem gdt_congr {s s' : BankState} (now : Int) (a : String)
    (h : entriesOf s' a = entriesOf s a) :
    get_daily_transfer_total now a s' = get_daily_transfer_total now a s := by
  rw [gdt_eq_spec, gdt_eq_spec, h]

/-! ### `lockOrder` lemmas -/

theorem lexLeb_refl (l : List Char) : lexLeb l l = true := by
  induction l with
  | nil => rfl
  | cons c cs ih => simp [lexLeb, lt_irrefl, ih]

theorem lexLeb_total (l₁ l₂ : List Char) :
    lexLeb l₁ l₂ = true ∨ lexLeb l₂ l₁ = true := by
  induction l₁ generalizing l₂ with
  | nil => exact Or.inl rfl
  | cons a as ih =>
    cases l₂ with
    | nil => exact Or.inr rfl
    | cons b bs =>
      by_cases hab : a < b
      · exact Or.inl (by simp [lexLeb, hab])
      · by_cases hba : b < a
        · exact Or.inr (by simp [lexLeb, hba])
        · rcases ih bs with h | h
          · exact Or.inl (by simp [lexLeb, hab, hba, h])
          · exact Or.inr (by simp [lexLeb, hab, hba, h])

theorem lexLeb_antisymm {l₁ l₂ : List Char} (h₁ : lexLeb l₁ l₂ = true)
    (h₂ : lexLeb l₂ l₁ = true) : l₁ = l₂ := by
  induction l₁ generalizing l₂ with
  | nil =>
    cases l₂ with
    | nil => rfl
    | cons b bs => exact absurd h₂ (by simp [lexLeb])
  | cons a as ih =>
    cases l₂ with
    | nil => exact absurd h₁ (by simp [lexLeb])
    | cons b bs =>
      by_cases hab : a < b
      · rw [show lexLeb (b :: bs) (a :: as) = false by
          simp [lexLeb, hab, asymm hab, lt_asymm hab]] at h₂
        exact absurd h₂ (by simp)
      · by_cases hba : b < a
        · rw [show lexLeb (a :: as) (b :: bs) = false by
            simp [lexLeb, hab, hba]] at h₁
          exact absurd h₁ (by simp)
        · have hasbs : as = bs := by
            apply ih
            · simpa [lexLeb, hab, hba] using h₁
            · simpa [lexLeb, hab, hba] using h₂
          have hchar : a = b := le_antisymm (not_lt.mp hba) (not_lt.mp hab)
          rw [hasbs, hchar]

theorem strLeb_refl (a : String) : strLeb a a = true :=
  lexLeb_refl a.data

theorem strLeb_total (a b : String) :
    strLeb a b = true ∨ strLeb b a = true :=
  lexLeb_total a.data b.data

theorem strLeb_antisymm {a b : String} (h₁ : strLeb a b = true)
    (h₂ : strLeb b a = true) : a = b := by
  cases a with
  | mk da =>
    cases b with
    | mk db =>
      have : da = db := lexLeb_antisymm h₁ h₂
      rw [this]

theorem lockOrder_self (a : String) : lockOrder a a = (a, a) := by
  unfold lockOrder
  rw [strLeb_refl]
  rfl

theorem lockOrder_symm {a b : String} (h : a ≠ b) :
    lockOrder a b = lockOrder b a := by
  unfold lockOrder
  cases hab : strLeb a b
  · have hba : strLeb b a = true :=
      (strLeb_total a b).resolve_left (by simp [hab])
    rw [hba]
    rfl
  · have hba : strLeb b a = false := by
      cases hh : strLeb b a
      · rfl
      · exact absurd (strLeb_antisymm hab hh) h
    rw [hba]
    rfl

theorem lockOrder_sorted {a b : String} (h : a ≠ b) :
    strLeb (lockOrder a b).1 (lockOrder a b).2 = true ∧
      (lockOrder a b).1 ≠ (lockOrder a b).2 := by
  unfold lockOrder
  cases hab : strLeb a b
  · have hba : strLeb b a = true :=
      (strLeb_total a b).resolve_left (by simp [hab])
    exact ⟨hba, Ne.symm h⟩
  · exact ⟨hab, h⟩

theorem lockOrder_fst_eq_snd {a b : String} (h : a = b) :
    (lockOrder a b).1 = (lockOrder a b).2 := by
  subst h
  rw [lockOrder_self]

theorem lockOrder_fst_ne_snd {a b : String} (h : a ≠ b) :
    (lockOrder a b).1 ≠ (lockOrder a b).2 :=
  (lockOrder_sorted h).2

/-! ### `transfer` dispatch lemmas -/

theorem transfer_ptl {m : Int} (h : PER_TRANSFER_MAX < m) (now : Int)
    (k : Option String) (f t : String) (s : BankState) :
    transfer now k f t m s = ⟨.failure .perTransferLimit, [], s⟩ := by
  simp only [transfer]
  rw [if_pos h]

theorem transfer_none_eq_core {m : Int} (h : ¬ PER_TRANSFER_MAX < m)
    (now : Int) (f t : String) (s : BankState) :
    transfer now none f t m s = transferCore now none f t m s := by
  simp only [transfer]
  rw [if_neg h]

theorem transfer_cached {now m : Int} {key : String} {s : BankState}
    {r : TxResponse} (h : ¬ PER_TRANSFER_MAX < m)
    (hc : check_idempotency now key s = some r) (f t : String) :
    transfer now (some key) f t m s = ⟨.success r, [], s⟩ := by
  simp only [transfer]
  rw [if_neg h, hc]

theorem transfer_miss_eq_core {now m : Int} {key : String} {s : BankState}
    (h : ¬ PER_TRANSFER_MAX < m)
    (hc : check_idempotency now key s = none) (f t : String) :
    transfer now (some key) f t m s =
      transferCore now (some key) f t m s := by
  simp only [transfer]
  rw [if_neg h, hc]

/-! ### `transferCore` path lemmas -/

theorem windowCount_ensured (now : Int) (f t a : String) (s : BankState) :
    windowCount now a (ensure_account t (ensure_account f s)) =
      windowCount now a s :=
  windowCount_congr (by rw [ensure_rate, ensure_rate]) now a

theorem bal_afterRate (now : Int) (f t c : String) (s : BankState) :
    bal (afterRate now f t s) c = bal s c := by
  unfold afterRate
  have h1 : bal ((check_rate_limit now f
      (ensure_account t (ensure_account f s))).2) c =
      bal (ensure_account t (ensure_account f s)) c := by
    unfold bal
    rw [crl_accounts]
  rw [h1, bal_ensure, bal_ensure]

theorem entriesOf_afterRate {s : BankState} (hwf : WF s) (now : Int)
    (f t c : String) :
    entriesOf (afterRate now f t s) c = entriesOf s c := by
  unfold afterRate
  have h1 : entriesOf ((check_rate_limit now f
      (ensure_account t (ensure_account f s))).2) c =
      entriesOf (ensure_account t (ensure_account f s)) c := by
    unfold entriesOf
    rw [crl_ledger]
  rw [h1, entriesOf_ensure (WF_ensure hwf f), entriesOf_ensure hwf]

theorem idem_afterRate (now : Int) (f t : String) (s : BankState) :
    (afterRate now f t s).idempotency_store = s.idempotency_store := by
  unfold afterRate
  rw [crl_idem, ensure_idem, ensure_idem]

theorem nextTx_afterRate (now : Int) (f t : String) (s : BankState) :
    (afterRate now f t s).nextTx = s.nextTx := by
  unfold afterRate
  rw [crl_nextTx, ensure_nextTx, ensure_nextTx]

theorem WF_afterRate {s : BankState} (hwf : WF s) (now : Int)
    (f t : String) : WF (afterRate now f t s) := by
  unfold afterRate
  exact WF_congr (crl_accounts _ _ _) (crl_ledger _ _ _)
    (WF_ensure (WF_ensure hwf f) t)

theorem core_rateLimited {now m : Int} {f t : String} {s : BankState}
    (h : RATE_LIMIT_PER_MINUTE ≤ windowCount now f s) (k : Option String) :
    transferCore now k f t m s =
      ⟨.failure .rateLimited, [],
        ensure_account t (ensure_account f s)⟩ := by
  have hcrl : check_rate_limit now f (ensure_account t (ensure_account f s)) =
      (false, ensure_account t (ensure_account f s)) :=
    crl_reject (by rw [windowCount_ensured]; exact h)
  simp only [transferCore, hcrl]
  simp

theorem rate_recorded {now : Int} {f t : String} {s : BankState}
    (h : windowCount now f s < RATE_LIMIT_PER_MINUTE) :
    check_rate_limit now f (ensure_account t (ensure_account f s)) =
      (true, afterRate now f t s) := by
  have := crl_record (s := ensure_account t (ensure_account f s))
    (by rw [windowCount_ensured]; exact h)
  unfold afterRate
  rw [this]

theorem core_deadlock {now m : Int} {f t : String} {s : BankState}
    (h : windowCount now f s < RATE_LIMIT_PER_MINUTE) (hft : f = t)
    (k : Option String) :
    transferCore now k f t m s =
      ⟨.deadlock, [(lockOrder f t).1], afterRate now f t s⟩ := by
  simp only [transferCore, rate_recorded h]
  rw [if_neg (by simp)]
  rw [if_pos (lockOrder_fst_eq_snd hft)]

theorem core_dailyLimit {now m : Int} {f t : String} {s : BankState}
    (hwf : WF s) (h : windowCount now f s < RATE_LIMIT_PER_MINUTE)
    (hft : f ≠ t)
    (hd : DAILY_TRANSFER_LIMIT < get_daily_transfer_total now f s + m)
    (k : Option String) :
    transferCore now k f t m s =
      ⟨.failure .dailyLimit, [(lockOrder f t).1, (lockOrder f t).2],
        afterRate now f t s⟩ := by
  have hgdt : get_daily_transfer_total now f (afterRate now f t s) =
      get_daily_transfer_total now f s :=
    gdt_congr now f (entriesOf_afterRate hwf now f t f)
  simp only [transferCore, rate_recorded h]
  rw [if_neg (by simp)]
  rw [if_neg (lockOrder_fst_ne_snd hft)]
  rw [if_pos (by rw [hgdt]; exact hd)]

theorem core_insufficient {now m : Int} {f t : String} {s : BankState}
    (hwf : WF s) (h : windowCount now f s < RATE_LIMIT_PER_MINUTE)
    (hft : f ≠ t)
    (hd : ¬ DAILY_TRANSFER_LIMIT < get_daily_transfer_total now f s + m)
    (hf : bal s f < m) (k : Option String) :
    transferCore now k f t m s =
      ⟨.failure .insufficientFunds, [(lockOrder f t).1, (lockOrder f t).2],
        afterRate now f t s⟩ := by
  have hgdt : get_daily_transfer_total now f (afterRate now f t s) =
      get_daily_transfer_total now f s :=
    gdt_congr now f (entriesOf_afterRate hwf now f t f)
  simp only [transferCore, rate_recorded h]
  rw [if_neg (by simp)]
  rw [if_neg (lockOrder_fst_ne_snd hft)]
  rw [if_neg (by rw [hgdt]; exact hd)]
  rw [if_pos (show ((afterRate now f t s).accounts f).getD 0 < m by
    have hb : bal (afterRate now f t s) f = bal s f := bal_afterRate now f t f s
    unfold bal at hb
    rw [hb]
    exact hf)]

theorem accGetD_afterRate (now : Int) (f t c : String) (s : BankState) :
    ((afterRate now f t s).accounts c).getD 0 = (s.accounts c).getD 0 := by
  have := bal_afterRate now f t c s
  unfold bal at this
  exact this

theorem ledGetD_afterRate {s : BankState} (hwf : WF s) (now : Int)
    (f t c : String) :
    ((afterRate now f t s).ledger c).getD [] = (s.ledger c).getD [] := by
  have := entriesOf_afterRate hwf now f t c
  unfold entriesOf at this
  exact this

theorem core_success {now m : Int} {f t : String} {s : BankState}
    (hwf : WF s) (h : windowCount now f s < RATE_LIMIT_PER_MINUTE)
    (hft : f ≠ t)
    (hd : ¬ DAILY_TRANSFER_LIMIT < get_daily_transfer_total now f s + m)
    (hf : ¬ bal s f < m) (k : Option String) :
    transferCore now k f t m s =
      ⟨.success ⟨s.nextTx, "success"⟩,
        [(lockOrder f t).1, (lockOrder f t).2],
        successState now k f t m s⟩ := by
  have hgdt : get_daily_transfer_total now f (afterRate now f t s) =
      get_daily_transfer_total now f s :=
    gdt_congr now f (entriesOf_afterRate hwf now f t f)
  have hbal : ((afterRate now f t s).accounts f).getD 0 = (s.accounts f).getD 0 :=
    accGetD_afterRate now f t f s
  unfold bal at hf
  simp only [transferCore, rate_recorded h]
  rw [if_neg (by simp)]
  rw [if_neg (lockOrder_fst_ne_snd hft)]
  rw [if_neg (by rw [hgdt]; exact hd)]
  rw [if_neg (by rw [hbal]; exact hf)]
  simp only [successState, bal, entriesOf]
  simp only [updFn, hft, Ne.symm hft, if_true, if_false, ite_true, ite_false,
    if_neg hft, if_neg (Ne.symm hft), if_pos rfl, Option.getD_some,
    accGetD_afterRate, ledGetD_afterRate hwf, nextTx_afterRate]

/-! ### Observables of the success state -/

theorem store_accounts (now : Int) (key : String) (r : TxResponse)
    (s : BankState) :
    (store_idempotency now key r s).accounts = s.accounts := rfl

theorem store_ledger (now : Int) (key : String) (r : TxResponse)
    (s : BankState) :
    (store_idempotency now key r s).ledger = s.ledger := rfl

theorem successState_accounts (now : Int) (k : Option String)
    (f t : String) (m : Int) (s : BankState) :
    (successState now k f t m s).accounts =
      updFn (updFn (afterRate now f t s).accounts f (bal s f - m)) t
        (bal s t + m) := by
  unfold successState
  cases k <;> rfl

theorem successState_ledger (now : Int) (k : Option String)
    (f t : String) (m : Int) (s : BankState) :
    (successState now k f t m s).ledger =
      updFn
        (updFn (afterRate now f t s).ledger f
          (entriesOf s f ++
            [{ tx_id := s.nextTx, type := "transfer_out", amount := -m
               balance_after := bal s f - m, timestamp := now }]))
        t
        (entriesOf s t ++
          [{ tx_id := s.nextTx, type := "transfer_in", amount := m
             balance_after := bal s t + m, timestamp := now }]) := by
  unfold successState
  cases k <;> rfl

theorem bal_successState_t (now : Int) (k : Option String) (f t : String)
    (m : Int) (s : BankState) :
    bal (successState now k f t m s) t = bal s t + m := by
  unfold bal
  rw [successState_accounts]
  rw [show updFn (updFn (afterRate now f t s).accounts f (bal s f - m)) t
      (bal s t + m) t = some (bal s t + m) from updFn_self _ _ _]
  rfl

theorem bal_successState_f {f t : String} (hft : f ≠ t) (now : Int)
    (k : Option String) (m : Int) (s : BankState) :
    bal (successState now k f t m s) f = bal s f - m := by
  unfold bal
  rw [successState_accounts]
  rw [updFn_ne _ _ _ _ hft, updFn_self]
  rfl

theorem bal_successState_other {f t c : String} (hcf : c ≠ f) (hct : c ≠ t)
    (now : Int) (k : Option String) (m : Int) (s : BankState) :
    bal (successState now k f t m s) c = bal s c := by
  unfold bal
  rw [successState_accounts]
  rw [updFn_ne _ _ _ _ hct, updFn_ne _ _ _ _ hcf]
  exact accGetD_afterRate now f t c s

theorem entriesOf_successState_t (now : Int) (k : Option String)
    (f t : String) (m : Int) (s : BankState) :
    entriesOf (successState now k f t m s) t =
      entriesOf s t ++
        [{ tx_id := s.nextTx, type := "transfer_in", amount := m
           balance_after := bal s t + m, timestamp := now }] := by
  unfold entriesOf
  rw [successState_ledger, updFn_self]
  rfl

theorem entriesOf_successState_f {f t : String} (hft : f ≠ t) (now : Int)
    (k : Option String) (m : Int) (s : BankState) :
    entriesOf (successState now k f t m s) f =
      entriesOf s f ++
        [{ tx_id := s.nextTx, type := "transfer_out", amount := -m
           balance_after := bal s f - m, timestamp := now }] := by
  unfold entriesOf
  rw [successState_ledger, updFn_ne _ _ _ _ hft, updFn_self]
  rfl

theorem entriesOf_successState_other {s : BankState} (hwf : WF s)
    {f t c : String} (hcf : c ≠ f) (hct : c ≠ t) (now : Int)
    (k : Option String) (m : Int) :
    entriesOf (successState now k f t m s) c = entriesOf s c := by
  unfold entriesOf
  rw [successState_ledger, updFn_ne _ _ _ _ hct, updFn_ne _ _ _ _ hcf]
  exact ledGetD_afterRate hwf now f t c

theorem successState_idem_none (now : Int) (f t : String) (m : Int)
    (s : BankState) :
    (successState now none f t m s).idempotency_store =
      s.idempotency_store := by
  unfold successState
  exact idem_afterRate now f t s

theorem successState_idem_some (now : Int) (key : String) (f t : String)
    (m : Int) (s : BankState) :
    (successState now (some key) f t m s).idempotency_store =
      updFn s.idempotency_store key
        ⟨⟨s.nextTx, "success"⟩, now + IDEMPOTENCY_TTL_SECONDS⟩ := by
  unfold successState store_idempotency
  simp only [idem_afterRate]

theorem WF_successState {s : BankState} (hwf : WF s) (now : Int)
    (k : Option String) (f t : String) (m : Int) :
    WF (successState now k f t m s) := by
  have hA := WF_afterRate hwf now f t
  intro a
  rw [show (successState now k f t m s).accounts a =
      updFn (updFn (afterRate now f t s).accounts f (bal s f - m)) t
        (bal s t + m) a from congrFun (successState_accounts now k f t m s) a]
  rw [show (successState now k f t m s).ledger a = _ from
      congrFun (successState_ledger now k f t m s) a]
  by_cases hat : a = t
  · subst hat
    rw [updFn_self, updFn_self]
    simp
  · rw [updFn_ne _ _ _ _ hat, updFn_ne _ _ _ _ hat]
    by_cases haf : a = f
    · subst haf
      rw [updFn_self, updFn_self]
      simp
    · rw [updFn_ne _ _ _ _ haf, updFn_ne _ _ _ _ haf]
      exact hA a

/-! ### `deposit` and `withdraw` observables -/

theorem accGetD_ensure (b : String) (s : BankState) (a : String) :
    ((ensure_account b s).accounts a).getD 0 = (s.accounts a).getD 0 :=
  bal_ensure b s a

theorem ledGetD_ensure {s : BankState} (hwf : WF s) (b a : String) :
    ((ensure_account b s).ledger a).getD [] = (s.ledger a).getD [] :=
  entriesOf_ensure hwf b a

theorem bal_deposit (now : Int) (a : String) (m : Int) (s : BankState)
    (c : String) :
    bal (deposit now a m s).2 c = if c = a then bal s a + m else bal s c := by
  simp only [deposit]
  unfold bal
  dsimp only
  by_cases hca : c = a
  · subst hca
    rw [if_pos rfl, updFn_self]
    simp only [Option.getD_some]
    rw [accGetD_ensure]
  · rw [if_neg hca, updFn_ne _ _ _ _ hca]
    exact accGetD_ensure a s c

theorem entriesOf_deposit {s : BankState} (hwf : WF s) (now : Int)
    (a : String) (m : Int) (c : String) :
    entriesOf (deposit now a m s).2 c =
      if c = a then
        entriesOf s a ++
          [{ tx_id := s.nextTx, type := "deposit", amount := m
             balance_after := bal s a + m, timestamp := now }]
      else entriesOf s c := by
  simp only [deposit]
  unfold entriesOf bal
  dsimp only
  by_cases hca : c = a
  · subst hca
    rw [if_pos rfl, updFn_self]
    simp only [Option.getD_some]
    rw [ledGetD_ensure hwf, ensure_nextTx, accGetD_ensure]
  · rw [if_neg hca, updFn_ne _ _ _ _ hca]
    exact ledGetD_ensure hwf a c

theorem deposit_idem (now : Int) (a : String) (m : Int) (s : BankState) :
    (deposit now a m s).2.idempotency_store = s.idempotency_store := by
  simp only [deposit]
  exact ensure_idem a s

theorem deposit_rate (now : Int) (a : String) (m : Int) (s : BankState) :
    (deposit now a m s).2.rate_limits = s.rate_limits := by
  simp only [deposit]
  exact ensure_rate a s

theorem WF_deposit {s : BankState} (hwf : WF s) (now : Int) (a : String)
    (m : Int) : WF (deposit now a m s).2 := by
  simp only [deposit]
  intro c
  dsimp only
  by_cases hca : c = a
  · subst hca
    rw [show (updFn (ensure_account c s).accounts c _) c = _ from
      updFn_self _ _ _]
    rw [show (updFn (ensure_account c s).ledger c _) c = _ from
      updFn_self _ _ _]
    simp
  · rw [updFn_ne _ _ _ _ hca, updFn_ne _ _ _ _ hca]
    exact WF_ensure hwf a c

theorem withdraw_insufficient {now m : Int} {a : String} {s : BankState}
    (h : bal s a < m) :
    withdraw now a m s = (.error .insufficientFunds, ensure_account a s) := by
  simp only [withdraw]
  unfold bal at h
  rw [if_pos (by rw [accGetD_ensure]; exact h)]

theorem withdraw_fst_ok {now m : Int} {a : String} {s : BankState}
    (h : ¬ bal s a < m) :
    (withdraw now a m s).1 =
      .ok { tx_id := s.nextTx, type := "withdrawal", amount := -m
            balance_after := bal s a - m, timestamp := now } := by
  simp only [withdraw]
  unfold bal at h
  rw [if_neg (by rw [accGetD_ensure]; exact h)]
  dsimp only
  unfold bal
  simp only [accGetD_ensure, ensure_nextTx]

theorem bal_withdraw {now m : Int} {a : String} {s : BankState}
    (h : ¬ bal s a < m) (c : String) :
    bal (withdraw now a m s).2 c = if c = a then bal s a - m else bal s c := by
  simp only [withdraw]
  unfold bal at h
  rw [if_neg (by rw [accGetD_ensure]; exact h)]
  unfold bal
  dsimp only
  by_cases hca : c = a
  · subst hca
    rw [if_pos rfl, updFn_self]
    simp only [Option.getD_some]
    rw [accGetD_ensure]
  · rw [if_neg hca, updFn_ne _ _ _ _ hca]
    exact accGetD_ensure a s c

theorem entriesOf_withdraw {now m : Int} {a : String} {s : BankState}
    (hwf : WF s) (h : ¬ bal s a < m) (c : String) :
    entriesOf (withdraw now a m s).2 c =
      if c = a then
        entriesOf s a ++
          [{ tx_id := s.nextTx, type := "withdrawal", amount := -m
             balance_after := bal s a - m, timestamp := now }]
      else entriesOf s c := by
  simp only [withdraw]
  unfold bal at h
  rw [if_neg (by rw [accGetD_ensure]; exact h)]
  unfold entriesOf bal
  dsimp only
  by_cases hca : c = a
  · subst hca
    rw [if_pos rfl, updFn_self]
    simp only [Option.getD_some]
    rw [ledGetD_ensure hwf, ensure_nextTx, accGetD_ensure]
  · rw [if_neg hca, updFn_ne _ _ _ _ hca]
    exact ledGetD_ensure hwf a c

theorem withdraw_idem (now : Int) (a : String) (m : Int) (s : BankState) :
    (withdraw now a m s).2.idempotency_store = s.idempotency_store := by
  simp only [withdraw]
  split
  · exact ensure_idem a s
  · exact ensure_idem a s

theorem withdraw_rate (now : Int) (a : String) (m : Int) (s : BankState) :
    (withdraw now a m s).2.rate_limits = s.rate_limits := by
  simp only [withdraw]
  split
  · exact ensure_rate a s
  · exact ensure_rate a s

theorem WF_withdraw {s : BankState} (hwf : WF s) (now : Int) (a : String)
    (m : Int) : WF (withdraw now a m s).2 := by
  simp only [withdraw]
  split
  · exact WF_ensure hwf a
  · intro c
    dsimp only
    by_cases hca : c = a
    · subst hca
      rw [show (updFn (ensure_account c s).accounts c _) c = _ from
        updFn_self _ _ _]
      rw [show (updFn (ensure_account c s).ledger c _) c = _ from
        updFn_self _ _ _]
      simp
    · rw [updFn_ne _ _ _ _ hca, updFn_ne _ _ _ _ hca]
      exact WF_ensure hwf a c

/-! ### Inversion and preservation lemmas for `transfer` -/

theorem core_not_ptl (now : Int) (k : Option String) (f t : String)
    (m : Int) (s : BankState) :
    (transferCore now k f t m s).outcome ≠ .failure .perTransferLimit := by
  by_cases hr : RATE_LIMIT_PER_MINUTE ≤ windowCount now f s
  · rw [core_rateLimited hr k]
    simp
  · have hr' := Nat.lt_of_not_le hr
    by_cases hft : f = t
    · rw [core_deadlock hr' hft k]
      simp
    · by_cases hd : DAILY_TRANSFER_LIMIT < get_daily_transfer_total now f s + m
      · by_cases hwf : WF s
        · rw [core_dailyLimit hwf hr' hft hd k]
          simp
        · -- without well-formedness, fall back to direct branch analysis
          simp only [transferCore, rate_recorded hr']
          rw [if_neg (by simp)]
          rw [if_neg (lockOrder_fst_ne_snd hft)]
          split
          · simp
          · split
            · simp
            · simp
      · by_cases hwf : WF s
        · by_cases hf : bal s f < m
          · rw [core_insufficient hwf hr' hft hd hf k]
            simp
          · rw [core_success hwf hr' hft hd hf k]
            simp
        · simp only [transferCore, rate_recorded hr']
          rw [if_neg (by simp)]
          rw [if_neg (lockOrder_fst_ne_snd hft)]
          split
          · simp
          · split
            · simp
            · simp

theorem core_success_inv {now m : Int} {k : Option String} {f t : String}
    {s : BankState} {r : TxResponse} (hwf : WF s)
    (h : (transferCore now k f t m s).outcome = .success r) :
    windowCount now f s < RATE_LIMIT_PER_MINUTE ∧ f ≠ t ∧
      ¬ DAILY_TRANSFER_LIMIT < get_daily_transfer_total now f s + m ∧
      ¬ bal s f < m ∧ r = ⟨s.nextTx, "success"⟩ ∧
      transferCore now k f t m s =
        ⟨.success ⟨s.nextTx, "success"⟩,
          [(lockOrder f t).1, (lockOrder f t).2],
          successState now k f t m s⟩ := by
  by_cases hr : RATE_LIMIT_PER_MINUTE ≤ windowCount now f s
  · rw [core_rateLimited hr k] at h
    exact absurd h (by simp)
  · have hr' := Nat.lt_of_not_le hr
    by_cases hft : f = t
    · rw [core_deadlock hr' hft k] at h
      exact absurd h (by simp)
    · by_cases hd : DAILY_TRANSFER_LIMIT < get_daily_transfer_total now f s + m
      · rw [core_dailyLimit hwf hr' hft hd k] at h
        exact absurd h (by simp)
      · by_cases hf : bal s f < m
        · rw [core_insufficient hwf hr' hft hd hf k] at h
          exact absurd h (by simp)
        · have heq := core_success hwf hr' hft hd hf k
          rw [heq] at h
          have hres : r = ⟨s.nextTx, "success"⟩ := by
            have : TransferOutcome.success ⟨s.nextTx, "success"⟩ =
                TransferOutcome.success r := h
            cases this
            rfl
          exact ⟨hr', hft, hd, hf, hres, heq⟩

theorem core_failure_obs {now m : Int} {k : Option String} {f t : String}
    {s : BankState} {e : BankError} (hwf : WF s)
    (h : (transferCore now k f t m s).outcome = .failure e) :
    (∀ c, bal (transferCore now k f t m s).state c = bal s c ∧
      entriesOf (transferCore now k f t m s).state c = entriesOf s c) ∧
    (transferCore now k f t m s).state.idempotency_store =
      s.idempotency_store := by
  by_cases hr : RATE_LIMIT_PER_MINUTE ≤ windowCount now f s
  · rw [core_rateLimited hr k]
    refine ⟨fun c => ⟨?_, ?_⟩, ?_⟩
    · show bal (ensure_account t (ensure_account f s)) c = bal s c
      rw [bal_ensure, bal_ensure]
    · show entriesOf (ensure_account t (ensure_account f s)) c = entriesOf s c
      rw [entriesOf_ensure (WF_ensure hwf f), entriesOf_ensure hwf]
    · show (ensure_account t (ensure_account f s)).idempotency_store =
        s.idempotency_store
      rw [ensure_idem, ensure_idem]
  · have hr' := Nat.lt_of_not_le hr
    by_cases hft : f = t
    · rw [core_deadlock hr' hft k] at h
      exact absurd h (by simp)
    · by_cases hd : DAILY_TRANSFER_LIMIT < get_daily_transfer_total now f s + m
      · rw [core_dailyLimit hwf hr' hft hd k]
        exact ⟨fun c => ⟨bal_afterRate now f t c s,
          entriesOf_afterRate hwf now f t c⟩, idem_afterRate now f t s⟩
      · by_cases hf : bal s f < m
        · rw [core_insufficient hwf hr' hft hd hf k]
          exact ⟨fun c => ⟨bal_afterRate now f t c s,
            entriesOf_afterRate hwf now f t c⟩, idem_afterRate now f t s⟩
        · rw [core_success hwf hr' hft hd hf k] at h
          exact absurd h (by simp)

theorem WF_core {s : BankState} (hwf : WF s) (now : Int)
    (k : Option String) (f t : String) (m : Int) :
    WF (transferCore now k f t m s).state := by
  by_cases hr : RATE_LIMIT_PER_MINUTE ≤ windowCount now f s
  · rw [core_rateLimited hr k]
    exact WF_ensure (WF_ensure hwf f) t
  · have hr' := Nat.lt_of_not_le hr
    by_cases hft : f = t
    · rw [core_deadlock hr' hft k]
      exact WF_afterRate hwf now f t
    · by_cases hd : DAILY_TRANSFER_LIMIT < get_daily_transfer_total now f s + m
      · rw [core_dailyLimit hwf hr' hft hd k]
        exact WF_afterRate hwf now f t
      · by_cases hf : bal s f < m
        · rw [core_insufficient hwf hr' hft hd hf k]
          exact WF_afterRate hwf now f t
        · rw [core_success hwf hr' hft hd hf k]
          exact WF_successState hwf now k f t m

theorem WF_transfer {s : BankState} (hwf : WF s) (now : Int)
    (k : Option String) (f t : String) (m : Int) :
    WF (transfer now k f t m s).state := by
  by_cases hm : PER_TRANSFER_MAX < m
  · rw [transfer_ptl hm]
    exact hwf
  · cases k with
    | none =>
      rw [transfer_none_eq_core hm]
      exact WF_core hwf now none f t m
    | some key =>
      cases hci : check_idempotency now key s with
      | some r =>
        rw [transfer_cached hm hci]
        exact hwf
      | none =>
        rw [transfer_miss_eq_core hm hci]
        exact WF_core hwf now (some key) f t m

/-! ### Conservation invariant -/

theorem Conserved_initState : Conserved initState := by
  intro a
  simp [Conserved, entriesOf, bal, initState]

theorem Conserved_deposit {s : BankState} (hwf : WF s) (hc : Conserved s)
    (now : Int) (a : String) (m : Int) : Conserved (deposit now a m s).2 := by
  intro c
  rw [entriesOf_deposit hwf now a m c, bal_deposit now a m s c]
  by_cases hca : c = a
  · subst hca
    rw [if_pos rfl, if_pos rfl, List.map_append, List.sum_append]
    rw [hc c]
    simp
  · rw [if_neg hca, if_neg hca]
    exact hc c

theorem Conserved_withdraw {s : BankState} (hwf : WF s) (hc : Conserved s)
    (now : Int) (a : String) (m : Int) :
    Conserved (withdraw now a m s).2 := by
  by_cases hb : bal s a < m
  · rw [withdraw_insufficient hb]
    intro c
    rw [entriesOf_ensure hwf a c]
    show _ = bal (ensure_account a s) c
    rw [bal_ensure]
    exact hc c
  · intro c
    rw [entriesOf_withdraw hwf hb c, bal_withdraw hb c]
    by_cases hca : c = a
    · subst hca
      rw [if_pos rfl, if_pos rfl, List.map_append, List.sum_append]
      rw [hc c]
      simp [sub_eq_add_neg]
    · rw [if_neg hca, if_neg hca]
      exact hc c

theorem Conserved_core {s : BankState} (hwf : WF s) (hc : Conserved s)
    (now : Int) (k : Option String) (f t : String) (m : Int) :
    Conserved (transferCore now k f t m s).state := by
  by_cases hr : RATE_LIMIT_PER_MINUTE ≤ windowCount now f s
  · rw [core_rateLimited hr k]
    intro c
    show ((entriesOf (ensure_account t (ensure_account f s)) c).map
      LedgerEntry.amount).sum = bal (ensure_account t (ensure_account f s)) c
    rw [entriesOf_ensure (WF_ensure hwf f), entriesOf_ensure hwf,
      bal_ensure, bal_ensure]
    exact hc c
  · have hr' := Nat.lt_of_not_le hr
    by_cases hft : f = t
    · rw [core_deadlock hr' hft k]
      intro c
      show ((entriesOf (afterRate now f t s) c).map LedgerEntry.amount).sum =
        bal (afterRate now f t s) c
      rw [entriesOf_afterRate hwf, bal_afterRate]
      exact hc c
    · by_cases hd : DAILY_TRANSFER_LIMIT <
          get_daily_transfer_total now f s + m
      · rw [core_dailyLimit hwf hr' hft hd k]
        intro c
        show ((entriesOf (afterRate now f t s) c).map LedgerEntry.amount).sum =
          bal (afterRate now f t s) c
        rw [entriesOf_afterRate hwf, bal_afterRate]
        exact hc c
      · by_cases hf : bal s f < m
        · rw [core_insufficient hwf hr' hft hd hf k]
          intro c
          show ((entriesOf (afterRate now f t s) c).map
            LedgerEntry.amount).sum = bal (afterRate now f t s) c
          rw [entriesOf_afterRate hwf, bal_afterRate]
          exact hc c
        · rw [core_success hwf hr' hft hd hf k]
          intro c
          show ((entriesOf (successState now k f t m s) c).map
            LedgerEntry.amount).sum = bal (successState now k f t m s) c
          by_cases hcf : c = f
          · subst hcf
            rw [entriesOf_successState_f hft, bal_successState_f hft,
              List.map_append, List.sum_append, hc c]
            simp [sub_eq_add_neg]
          · by_cases hct : c = t
            · subst hct
              rw [entriesOf_successState_t, bal_successState_t,
                List.map_append, List.sum_append, hc c]
              simp
            · rw [entriesOf_successState_other hwf hcf hct,
                bal_successState_other hcf hct]
              exact hc c

theorem Conserved_transfer {s : BankState} (hwf : WF s) (hc : Conserved s)
    (now : Int) (k : Option String) (f t : String) (m : Int) :
    Conserved (transfer now k f t m s).state := by
  by_cases hm : PER_TRANSFER_MAX < m
  · rw [transfer_ptl hm]
    exact hc
  · cases k with
    | none =>
      rw [transfer_none_eq_core hm]
      exact Conserved_core hwf hc now none f t m
    | some key =>
      cases hci : check_idempotency now key s with
      | some r =>
        rw [transfer_cached hm hci]
        exact hc
      | none =>
        rw [transfer_miss_eq_core hm hci]
        exact Conserved_core hwf hc now (some key) f t m

theorem WF_applyOp {s : BankState} (hwf : WF s) (op : Op) :
    WF (applyOp op s) := by
  cases op with
  | depositOp now a m => exact WF_deposit hwf now a m
  | withdrawOp now a m => exact WF_withdraw hwf now a m
  | transferOp now k f t m => exact WF_transfer hwf now k f t m

theorem Conserved_applyOp {s : BankState} (hwf : WF s) (hc : Conserved s)
    (op : Op) : Conserved (applyOp op s) := by
  cases op with
  | depositOp now a m => exact Conserved_deposit hwf hc now a m
  | withdrawOp now a m => exact Conserved_withdraw hwf hc now a m
  | transferOp now k f t m => exact Conserved_transfer hwf hc now k f t m

theorem WF_Conserved_foldl (ops : List Op) :
    ∀ s : BankState, WF s → Conserved s →
      WF (ops.foldl (fun s op => applyOp op s) s) ∧
        Conserved (ops.foldl (fun s op => applyOp op s) s) := by
  induction ops with
  | nil => exact fun s hwf hc => ⟨hwf, hc⟩
  | cons op ops ih =>
    intro s hwf hc
    exact ih (applyOp op s) (WF_applyOp hwf op) (Conserved_applyOp hwf hc op)

theorem WF_run (ops : List Op) : WF (run ops) :=
  (WF_Conserved_foldl ops initState WF_initState Conserved_initState).1

theorem Conserved_run (ops : List Op) : Conserved (run ops) :=
  (WF_Conserved_foldl ops initState WF_initState Conserved_initState).2

/-! ### Remaining transfer-level helpers -/

theorem transfer_success_stores {now m : Int} {key f t : String}
    {s : BankState} {r : TxResponse} (hwf : WF s)
    (hci : check_idempotency now key s = none)
    (h : (transfer now (some key) f t m s).outcome = .success r) :
    ¬ PER_TRANSFER_MAX < m ∧
      (transfer now (some key) f t m s).state.idempotency_store key =
        some ⟨r, now + IDEMPOTENCY_TTL_SECONDS⟩ := by
  by_cases hm : PER_TRANSFER_MAX < m
  · rw [transfer_ptl hm] at h
    exact absurd h (by simp)
  · rw [transfer_miss_eq_core hm hci] at h ⊢
    obtain ⟨_, _, _, _, hres, heq⟩ := core_success_inv hwf h
    rw [heq]
    refine ⟨hm, ?_⟩
    show (successState now (some key) f t m s).idempotency_store key = _
    rw [successState_idem_some, updFn_self, hres]

theorem transfer_none_success_effects {now m : Int} {f t : String}
    {s : BankState} {r : TxResponse} (hwf : WF s)
    (h : (transfer now none f t m s).outcome = .success r) :
    f ≠ t ∧
      bal (transfer now none f t m s).state f = bal s f - m ∧
      bal (transfer now none f t m s).state t = bal s t + m ∧
      (∀ c, c ≠ f → c ≠ t →
        bal (transfer now none f t m s).state c = bal s c) := by
  by_cases hm : PER_TRANSFER_MAX < m
  · rw [transfer_ptl hm] at h
    exact absurd h (by simp)
  · rw [transfer_none_eq_core hm] at h ⊢
    obtain ⟨_, hft, _, _, _, heq⟩ := core_success_inv hwf h
    rw [heq]
    exact ⟨hft, bal_successState_f hft now none m s, bal_successState_t now none f t m s,
      fun c hcf hct => bal_successState_other hcf hct now none m s⟩

/-! ### The claims -/

/-- C1: for every account, after every finite sequence of deposit,
withdraw and transfer operations, the balance equals the sum of the
signed amounts of that account's ledger entries (from balance 0); and
every executed transfer appends exactly one `transfer_out` and one
`transfer_in` entry of equal magnitude and opposite sign sharing one
transaction id, touching no other ledger. -/
theorem conservation_and_paired_entries :
    (∀ ops : List Op, Conserved (run ops)) ∧
    (∀ (now m : Int) (f t : String) (s : BankState) (r : TxResponse),
      WF s → (transfer now none f t m s).outcome = .success r →
      f ≠ t ∧
        entriesOf (transfer now none f t m s).state f =
          entriesOf s f ++
            [{ tx_id := r.tx_id, type := "transfer_out", amount := -m
               balance_after := bal s f - m, timestamp := now }] ∧
        entriesOf (transfer now none f t m s).state t =
          entriesOf s t ++
            [{ tx_id := r.tx_id, type := "transfer_in", amount := m
               balance_after := bal s t + m, timestamp := now }] ∧
        (∀ c, c ≠ f → c ≠ t →
          entriesOf (transfer now none f t m s).state c = entriesOf s c)) := by
  constructor
  · exact Conserved_run
  · intro now m f t s r hwf h
    by_cases hm : PER_TRANSFER_MAX < m
    · rw [transfer_ptl hm] at h
      exact absurd h (by simp)
    · rw [transfer_none_eq_core hm] at h ⊢
      obtain ⟨_, hft, _, _, hres, heq⟩ := core_success_inv hwf h
      rw [heq]
      subst hres
      refine ⟨hft, ?_, ?_, ?_⟩
      · show entriesOf (successState now none f t m s) f = _
        rw [entriesOf_successState_f hft]
      · show entriesOf (successState now none f t m s) t = _
        rw [entriesOf_successState_t]
      · intro c hcf hct
        show entriesOf (successState now none f t m s) c = entriesOf s c
        exact entriesOf_successState_other hwf hcf hct now none m

theorem conservation_and_paired_entries_witness :
    ("a" : String) ≠ "b" ∧
      entriesOf (transfer 7 none "a" "b" 30
          (deposit 0 "a" 100 initState).2).state "b" =
        entriesOf (deposit 0 "a" 100 initState).2 "b" ++
          [{ tx_id := (⟨1, "success"⟩ : TxResponse).tx_id
             type := "transfer_in", amount := 30
             balance_after := bal (deposit 0 "a" 100 initState).2 "b" + 30
             timestamp := 7 }] :=
  have h := conservation_and_paired_entries.2 7 30 "a" "b"
    (deposit 0 "a" 100 initState).2 ⟨1, "success"⟩
    (WF_deposit WF_initState 0 "a" 100) (by rfl)
  ⟨h.1, h.2.2.1⟩

/-- C2: every rejection of a withdraw or transfer leaves every account
balance and every ledger as before the call, and a rejected transfer
stores no idempotency entry. -/
theorem rejection_leaves_state_unchanged :
    (∀ (now m : Int) (a : String) (s : BankState) (e : BankError),
      WF s → (withdraw now a m s).1 = .error e →
        ∀ c, bal (withdraw now a m s).2 c = bal s c ∧
          entriesOf (withdraw now a m s).2 c = entriesOf s c) ∧
    (∀ (now m : Int) (k : Option String) (f t : String) (s : BankState)
        (e : BankError),
      WF s → (transfer now k f t m s).outcome = .failure e →
        (∀ c, bal (transfer now k f t m s).state c = bal s c ∧
          entriesOf (transfer now k f t m s).state c = entriesOf s c) ∧
        (transfer now k f t m s).state.idempotency_store =
          s.idempotency_store) := by
  constructor
  · intro now m a s e hwf herr
    by_cases hb : bal s a < m
    · rw [withdraw_insufficient hb]
      intro c
      exact ⟨bal_ensure a s c, entriesOf_ensure hwf a c⟩
    · rw [withdraw_fst_ok hb] at herr
      exact absurd herr (by simp)
  · intro now m k f t s e hwf h
    by_cases hm : PER_TRANSFER_MAX < m
    · rw [transfer_ptl hm]
      exact ⟨fun c => ⟨rfl, rfl⟩, rfl⟩
    · cases k with
      | none =>
        rw [transfer_none_eq_core hm] at h ⊢
        exact core_failure_obs hwf h
      | some key =>
        cases hci : check_idempotency now key s with
        | some r =>
          rw [transfer_cached hm hci] at h
          exact absurd h (by simp)
        | none =>
          rw [transfer_miss_eq_core hm hci] at h ⊢
          exact core_failure_obs hwf h

theorem rejection_leaves_state_unchanged_witness :
    bal (withdraw 0 "a" 5 initState).2 "a" = bal initState "a" ∧
      entriesOf (withdraw 0 "a" 5 initState).2 "a" =
        entriesOf initState "a" :=
  rejection_leaves_state_unchanged.1 0 5 "a" initState .insufficientFunds
    WF_initState (by rfl) "a"

/-- C3: the daily outbound total sums the absolute values of the
account's `transfer_out` entries dated the current UTC day (deposits,
withdrawals, `transfer_in` excluded), a transfer that reaches the daily
check is rejected with the daily-limit error exactly when this total
plus the amount exceeds 25,000, and a transfer bringing the cumulative
total to exactly 25,000 succeeds. -/
theorem daily_limit_boundary :
    (∀ (now : Int) (a : String) (s : BankState),
      get_daily_transfer_total now a s =
        daily_outbound_total_spec (dateOf now) (entriesOf s a)) ∧
    (∀ (now m : Int) (f t : String) (s : BankState),
      WF s → ¬ PER_TRANSFER_MAX < m → f ≠ t →
      windowCount now f s < RATE_LIMIT_PER_MINUTE →
        ((transfer now none f t m s).outcome = .failure .dailyLimit ↔
          DAILY_TRANSFER_LIMIT < get_daily_transfer_total now f s + m)) ∧
    (∀ (now m : Int) (f t : String) (s : BankState),
      WF s → ¬ PER_TRANSFER_MAX < m → f ≠ t →
      windowCount now f s < RATE_LIMIT_PER_MINUTE →
      get_daily_transfer_total now f s + m ≤ DAILY_TRANSFER_LIMIT →
      ¬ bal s f < m →
        (transfer now none f t m s).outcome =
          .success ⟨s.nextTx, "success"⟩) := by
  refine ⟨gdt_eq_spec, ?_, ?_⟩
  · intro now m f t s hwf hm hft hr
    constructor
    · intro h
      by_contra hd
      rw [transfer_none_eq_core hm] at h
      by_cases hf : bal s f < m
      · rw [core_insufficient hwf hr hft hd hf none] at h
        exact absurd h (by simp)
      · rw [core_success hwf hr hft hd hf none] at h
        exact absurd h (by simp)
    · intro hd
      rw [transfer_none_eq_core hm, core_dailyLimit hwf hr hft hd none]
  · intro now m f t s hwf hm hft hr hle hf
    rw [transfer_none_eq_core hm,
      core_success hwf hr hft (not_lt.mpr hle) hf none]

theorem daily_limit_boundary_witness :
    (transfer 3 none "a" "b" 5000
        ((transfer 2 none "a" "c" 10000
          ((transfer 1 none "a" "c" 10000
            (deposit 0 "a" 30000 initState).2).state)).state)).outcome =
      .success
        ⟨((transfer 2 none "a" "c" 10000
            ((transfer 1 none "a" "c" 10000
              (deposit 0 "a" 30000 initState).2).state)).state).nextTx,
          "success"⟩ :=
  daily_limit_boundary.2.2 3 5000 "a" "b"
    ((transfer 2 none "a" "c" 10000
      ((transfer 1 none "a" "c" 10000
        (deposit 0 "a" 30000 initState).2).state)).state)
    (WF_transfer (WF_transfer (WF_deposit WF_initState 0 "a" 30000)
      1 none "a" "c" 10000) 2 none "a" "c" 10000)
    (by decide) (by decide) (by decide) (by decide) (by decide)

/-- C4: replaying a transfer whose idempotency key was stored by an
earlier successful executing call, within the 24-hour expiry, returns
that call's cached response (same `tx_id`), acquires no locks and
changes nothing: a pure read. -/
theorem idempotent_replay_is_pure_read :
    ∀ (now₀ now₁ m : Int) (key f t : String) (s : BankState)
      (r : TxResponse),
      WF s → check_idempotency now₀ key s = none →
      (transfer now₀ (some key) f t m s).outcome = .success r →
      now₁ < now₀ + IDEMPOTENCY_TTL_SECONDS →
        transfer now₁ (some key) f t m
            (transfer now₀ (some key) f t m s).state =
          ⟨.success r, [], (transfer now₀ (some key) f t m s).state⟩ := by
  intro now₀ now₁ m key f t s r hwf hci h hexp
  obtain ⟨hm, hstore⟩ := transfer_success_stores hwf hci h
  have hci₁ : check_idempotency now₁ key
      (transfer now₀ (some key) f t m s).state = some r := by
    simp only [check_idempotency, hstore]
    rw [if_pos hexp]
  exact transfer_cached hm hci₁ f t

theorem idempotent_replay_is_pure_read_witness :
    transfer 10 (some "k") "a" "b" 5
        (transfer 0 (some "k") "a" "b" 5
          (deposit 0 "a" 100 initState).2).state =
      ⟨.success ⟨1, "success"⟩, [],
        (transfer 0 (some "k") "a" "b" 5
          (deposit 0 "a" 100 initState).2).state⟩ :=
  idempotent_replay_is_pure_read 0 10 5 "k" "a" "b"
    (deposit 0 "a" 100 initState).2 ⟨1, "success"⟩
    (WF_deposit WF_initState 0 "a" 100) (by rfl) (by rfl) (by decide)

/-- C5: the rate limiter counts the account's timestamps in the trailing
60 seconds; at or above 10 the call is rejected (as `RateLimited` at the
transfer level) with no mutation of the rate state, otherwise the
current timestamp is recorded and afterwards the window holds at most 10
timestamps, all within the trailing 60 seconds. -/
theorem rate_limiter_window_contract :
    (∀ (now : Int) (a : String) (s : BankState),
      RATE_LIMIT_PER_MINUTE ≤ windowCount now a s →
        check_rate_limit now a s = (false, s)) ∧
    (∀ (now : Int) (a : String) (s : BankState),
      windowCount now a s < RATE_LIMIT_PER_MINUTE →
        (check_rate_limit now a s).1 = true ∧
        ((check_rate_limit now a s).2.rate_limits a).getD [] =
          prunedWindow now a s ++ [now] ∧
        (((check_rate_limit now a s).2.rate_limits a).getD []).length ≤
          RATE_LIMIT_PER_MINUTE ∧
        (∀ x ∈ ((check_rate_limit now a s).2.rate_limits a).getD [],
          now - x < 60)) ∧
    (∀ (now m : Int) (f t : String) (s : BankState),
      ¬ PER_TRANSFER_MAX < m →
      RATE_LIMIT_PER_MINUTE ≤ windowCount now f s →
        (transfer now none f t m s).outcome = .failure .rateLimited ∧
        (transfer now none f t m s).state.rate_limits = s.rate_limits) := by
  refine ⟨fun now a s h => crl_reject h, ?_, ?_⟩
  · intro now a s h
    rw [crl_record h]
    have hwin : (updFn s.rate_limits a (prunedWindow now a s ++ [now]) a).getD
        [] = prunedWindow now a s ++ [now] := by
      rw [updFn_self]
      rfl
    refine ⟨rfl, hwin, ?_, ?_⟩
    · rw [hwin, List.length_append]
      have h1 : windowCount now a s = (prunedWindow now a s).length := rfl
      simp only [List.length_singleton]
      omega
    · intro x hx
      rw [hwin] at hx
      rcases List.mem_append.mp hx with hp | hn
      · have := (List.mem_filter.mp hp).2
        exact of_decide_eq_true this
      · rw [List.mem_singleton.mp hn]
        omega
  · intro now m f t s hm hr
    rw [transfer_none_eq_core hm, core_rateLimited hr none]
    refine ⟨rfl, ?_⟩
    show (ensure_account t (ensure_account f s)).rate_limits = s.rate_limits
    rw [ensure_rate, ensure_rate]

theorem rate_limiter_window_contract_witness :
    ((check_rate_limit 0 "a" initState).1 = true ∧
      ((check_rate_limit 0 "a" initState).2.rate_limits "a").getD [] =
        prunedWindow 0 "a" initState ++ [0] ∧
      (((check_rate_limit 0 "a" initState).2.rate_limits "a").getD
        []).length ≤ RATE_LIMIT_PER_MINUTE ∧
      (∀ x ∈ ((check_rate_limit 0 "a" initState).2.rate_limits "a").getD [],
        (0 : Int) - x < 60)) ∧
    check_rate_limit 0 "a"
        { initState with
          rate_limits :=
            updFn initState.rate_limits "a" [0, 0, 0, 0, 0, 0, 0, 0, 0, 0] } =
      (false,
        { initState with
          rate_limits :=
            updFn initState.rate_limits "a" [0, 0, 0, 0, 0, 0, 0, 0, 0, 0] }) :=
  ⟨rate_limiter_window_contract.2.1 0 "a" initState (by decide),
    rate_limiter_window_contract.1 0 "a" _ (by decide)⟩

/-- C6 (code bug): a self-transfer never completes.  `sorted([a, a])`
yields the same account twice, so `with get_lock(first), get_lock(second)`
acquires that account's non-reentrant `threading.Lock` twice and blocks
forever at the second acquisition.  On the repo's own test input
(`test_transfer_same_account`: deposit 1000, then transfer 100 from
`user1` to `user1`) the call ends in deadlock after acquiring one lock,
with no response and no ledger entries — not the claimed completed
no-op with two paired entries. -/
theorem self_transfer_deadlocks :
    ((transfer 0 none "user1" "user1" 100
        (deposit 0 "user1" 1000 initState).2).outcome = .deadlock ∧
      (transfer 0 none "user1" "user1" 100
        (deposit 0 "user1" 1000 initState).2).locksAcquired = ["user1"]) ∧
    (∀ (now m : Int) (a : String) (s : BankState),
      ¬ PER_TRANSFER_MAX < m →
      windowCount now a s < RATE_LIMIT_PER_MINUTE →
        (transfer now none a a m s).outcome = .deadlock) := by
  refine ⟨⟨rfl, rfl⟩, ?_⟩
  intro now m a s hm hr
  rw [transfer_none_eq_core hm, core_deadlock hr rfl none]

theorem self_transfer_deadlocks_witness :
    (transfer 0 none "x" "x" 1 initState).outcome = .deadlock :=
  self_transfer_deadlocks.2 0 1 "x" initState (by decide) (by decide)

/-- C7: a transfer between distinct accounts acquires the two locks in
the lexicographic order of the account ids, the same order regardless of
direction; hence the circular-wait pattern between two opposite
transfers on one pair is impossible; and two successful opposite
transfers leave the final balances reflecting both operations' net
effect. -/
theorem lock_order_total_and_deadlock_free :
    (∀ a b : String, a ≠ b →
      lockOrder a b = lockOrder b a ∧
        strLeb (lockOrder a b).1 (lockOrder a b).2 = true ∧
        (lockOrder a b).1 ≠ (lockOrder a b).2) ∧
    (∀ a b : String, a ≠ b →
      ¬ ((lockOrder a b).2 = (lockOrder b a).1 ∧
          (lockOrder b a).2 = (lockOrder a b).1)) ∧
    (∀ (now₁ now₂ m n : Int) (a b : String) (s : BankState)
        (r₁ r₂ : TxResponse),
      WF s →
      (transfer now₁ none a b m s).outcome = .success r₁ →
      (transfer now₂ none b a n
          (transfer now₁ none a b m s).state).outcome = .success r₂ →
        bal (transfer now₂ none b a n
            (transfer now₁ none a b m s).state).state a = bal s a - m + n ∧
          bal (transfer now₂ none b a n
              (transfer now₁ none a b m s).state).state b =
            bal s b + m - n ∧
          (∀ c, c ≠ a → c ≠ b →
            bal (transfer now₂ none b a n
                (transfer now₁ none a b m s).state).state c = bal s c)) := by
  refine ⟨?_, ?_, ?_⟩
  · intro a b h
    exact ⟨lockOrder_symm h, (lockOrder_sorted h).1, (lockOrder_sorted h).2⟩
  · intro a b h hcirc
    rw [← lockOrder_symm h] at hcirc
    exact lockOrder_fst_ne_snd h hcirc.1.symm
  · intro now₁ now₂ m n a b s r₁ r₂ hwf h₁ h₂
    have hwf₁ : WF (transfer now₁ none a b m s).state :=
      WF_transfer hwf now₁ none a b m
    obtain ⟨hab, hfa, hfb, hother⟩ := transfer_none_success_effects hwf h₁
    obtain ⟨hba, hgb, hga, hother₂⟩ := transfer_none_success_effects hwf₁ h₂
    refine ⟨?_, ?_, ?_⟩
    · rw [hga, hfa]
    · rw [hgb, hfb]
    · intro c hca hcb
      rw [hother₂ c hcb hca, hother c hca hcb]

theorem lock_order_total_and_deadlock_free_witness :
    bal (transfer 3 none "b" "a" 10
        (transfer 2 none "a" "b" 30
          (deposit 1 "b" 50 (deposit 0 "a" 100 initState).2).2).state).state
      "a" =
      bal (deposit 1 "b" 50 (deposit 0 "a" 100 initState).2).2 "a" - 30 + 10 :=
  (lock_order_total_and_deadlock_free.2.2 2 3 30 10 "a" "b"
    (deposit 1 "b" 50 (deposit 0 "a" 100 initState).2).2 ⟨2, "success"⟩
    ⟨3, "success"⟩
    (WF_deposit (WF_deposit WF_initState 0 "a" 100) 1 "b" 50)
    (by rfl) (by rfl)).1

/-- C8: a transfer whose amount exceeds 10,000 is rejected with the
per-transfer-limit error before touching any state (the returned state
is the input state, no locks are acquired), while an amount of exactly
10,000 never produces the per-transfer-limit error. -/
theorem per_transfer_limit_first :
    (∀ (now m : Int) (k : Option String) (f t : String) (s : BankState),
      PER_TRANSFER_MAX < m →
        transfer now k f t m s = ⟨.failure .perTransferLimit, [], s⟩) ∧
    (∀ (now : Int) (k : Option String) (f t : String) (s : BankState),
      (transfer now k f t PER_TRANSFER_MAX s).outcome ≠
        .failure .perTransferLimit) := by
  constructor
  · intro now m k f t s hm
    exact transfer_ptl hm now k f t s
  · intro now k f t s
    have hm : ¬ PER_TRANSFER_MAX < PER_TRANSFER_MAX := lt_irrefl _
    cases k with
    | none =>
      rw [transfer_none_eq_core hm]
      exact core_not_ptl now none f t PER_TRANSFER_MAX s
    | some key =>
      cases hci : check_idempotency now key s with
      | some r =>
        rw [transfer_cached hm hci]
        simp
      | none =>
        rw [transfer_miss_eq_core hm hci]
        exact core_not_ptl now (some key) f t PER_TRANSFER_MAX s

theorem per_transfer_limit_first_witness :
    transfer 0 none "a" "b" 10001 initState =
      ⟨.failure .perTransferLimit, [], initState⟩ :=
  per_transfer_limit_first.1 0 10001 none "a" "b" initState (by decide)

/-- C10: idempotency matching is by key alone; a transfer presenting a
key with an unexpired record returns the originally cached response and
mutates nothing, whatever the request body (any `from`, `to`, `amount`
within the per-transfer ceiling). -/
theorem idempotency_ignores_request_body :
    ∀ (now m : Int) (key f t : String) (s : BankState) (rec : IdemRecord),
      s.idempotency_store key = some rec → now < rec.expires_at →
      ¬ PER_TRANSFER_MAX < m →
        transfer now (some key) f t m s = ⟨.success rec.response, [], s⟩ := by
  intro now m key f t s rec hrec hnow hm
  have hci : check_idempotency now key s = some rec.response := by
    simp only [check_idempotency, hrec]
    rw [if_pos hnow]
  exact transfer_cached hm hci f t

theorem idempotency_ignores_request_body_witness :
    transfer 0 (some "k") "x" "y" 7
        { initState with
          idempotency_store :=
            updFn initState.idempotency_store "k" ⟨⟨42, "success"⟩, 100⟩ } =
      ⟨.success ⟨42, "success"⟩, [],
        { initState with
          idempotency_store :=
            updFn initState.idempotency_store "k" ⟨⟨42, "success"⟩, 100⟩ }⟩ :=
  idempotency_ignores_request_body 0 7 "k" "x" "y" _ ⟨⟨42, "success"⟩, 100⟩
    (by rfl) (by decide) (by decide)

/-! ### Ledger append-only and timestamp ordering -/

theorem applyOp_appends {s : BankState} (hwf : WF s) (op : Op)
    (a : String) :
    ∃ tail, entriesOf (applyOp op s) a = entriesOf s a ++ tail ∧
      ∀ e ∈ tail, e.timestamp = opTime op := by
  cases op with
  | depositOp now b m =>
    simp only [applyOp, opTime]
    by_cases hab : a = b
    · subst hab
      refine ⟨[{ tx_id := s.nextTx, type := "deposit", amount := m,
                 balance_after := bal s a + m, timestamp := now }], ?_, ?_⟩
      · rw [entriesOf_deposit hwf now a m a, if_pos rfl]
      · intro e he
        rw [List.mem_singleton] at he
        subst he
        rfl
    · refine ⟨[], ?_, by simp⟩
      rw [entriesOf_deposit hwf now b m a, if_neg hab, List.append_nil]
  | withdrawOp now b m =>
    simp only [applyOp, opTime]
    by_cases hb : bal s b < m
    · refine ⟨[], ?_, by simp⟩
      rw [withdraw_insufficient hb]
      show entriesOf (ensure_account b s) a = _
      rw [entriesOf_ensure hwf b a, List.append_nil]
    · by_cases hab : a = b
      · subst hab
        refine ⟨[{ tx_id := s.nextTx, type := "withdrawal", amount := -m,
                   balance_after := bal s a - m, timestamp := now }], ?_, ?_⟩
        · rw [entriesOf_withdraw hwf hb a, if_pos rfl]
        · intro e he
          rw [List.mem_singleton] at he
          subst he
          rfl
      · refine ⟨[], ?_, by simp⟩
        rw [entriesOf_withdraw hwf hb a, if_neg hab, List.append_nil]
  | transferOp now k f t m =>
    simp only [applyOp, opTime]
    by_cases hm : PER_TRANSFER_MAX < m
    · refine ⟨[], ?_, by simp⟩
      rw [transfer_ptl hm, List.append_nil]
    · have hcore : ∃ tail,
          entriesOf (transferCore now k f t m s).state a =
            entriesOf s a ++ tail ∧ ∀ e ∈ tail, e.timestamp = now := by
        by_cases hr : RATE_LIMIT_PER_MINUTE ≤ windowCount now f s
        · refine ⟨[], ?_, by simp⟩
          rw [core_rateLimited hr k]
          show entriesOf (ensure_account t (ensure_account f s)) a = _
          rw [entriesOf_ensure (WF_ensure hwf f), entriesOf_ensure hwf,
            List.append_nil]
        · have hr' := Nat.lt_of_not_le hr
          by_cases hft : f = t
          · refine ⟨[], ?_, by simp⟩
            rw [core_deadlock hr' hft k]
            show entriesOf (afterRate now f t s) a = _
            rw [entriesOf_afterRate hwf, List.append_nil]
          · by_cases hd : DAILY_TRANSFER_LIMIT <
                get_daily_transfer_total now f s + m
            · refine ⟨[], ?_, by simp⟩
              rw [core_dailyLimit hwf hr' hft hd k]
              show entriesOf (afterRate now f t s) a = _
              rw [entriesOf_afterRate hwf, List.append_nil]
            · by_cases hf : bal s f < m
              · refine ⟨[], ?_, by simp⟩
                rw [core_insufficient hwf hr' hft hd hf k]
                show entriesOf (afterRate now f t s) a = _
                rw [entriesOf_afterRate hwf, List.append_nil]
              · rw [core_success hwf hr' hft hd hf k]
                by_cases haf : a = f
                · subst haf
                  refine ⟨[{ tx_id := s.nextTx, type := "transfer_out",
                             amount := -m, balance_after := bal s a - m,
                             timestamp := now }], ?_, ?_⟩
                  · show entriesOf (successState now k a t m s) a = _
                    rw [entriesOf_successState_f hft]
                  · intro e he
                    rw [List.mem_singleton] at he
                    subst he
                    rfl
                · by_cases hat : a = t
                  · subst hat
                    refine ⟨[{ tx_id := s.nextTx, type := "transfer_in",
                               amount := m, balance_after := bal s a + m,
                               timestamp := now }], ?_, ?_⟩
                    · show entriesOf (successState now k f a m s) a = _
                      rw [entriesOf_successState_t]
                    · intro e he
                      rw [List.mem_singleton] at he
                      subst he
                      rfl
                  · refine ⟨[], ?_, by simp⟩
                    show entriesOf (successState now k f t m s) a = _
                    rw [entriesOf_successState_other hwf haf hat,
                      List.append_nil]
      cases k with
      | none =>
        rw [transfer_none_eq_core hm]
        exact hcore
      | some key =>
        cases hci : check_idempotency now key s with
        | some r =>
          refine ⟨[], ?_, by simp⟩
          rw [transfer_cached hm hci, List.append_nil]
        | none =>
          rw [transfer_miss_eq_core hm hci]
          exact hcore

theorem chain'_map_const {l : List LedgerEntry} {v : Int}
    (h : ∀ e ∈ l, e.timestamp = v) :
    List.Chain' (fun x y => x ≤ y) (l.map LedgerEntry.timestamp) := by
  induction l with
  | nil => simp
  | cons a l ih =>
    rw [List.map_cons, List.chain'_cons']
    constructor
    · intro y hy
      rw [List.head?_map] at hy
      obtain ⟨e, he, hy'⟩ := Option.map_eq_some'.mp hy
      have he' : e ∈ l := List.mem_of_mem_head? (by rw [he]; rfl)
      rw [← hy', h a (by simp), h e (List.mem_cons_of_mem a he')]
    · exact ih (fun e he => h e (List.mem_cons_of_mem a he))

theorem times_step {t₀ : Int} {s : BankState} (hwf : WF s)
    (hinv : ∀ a,
      List.Chain' (fun x y => x ≤ y)
        ((entriesOf s a).map LedgerEntry.timestamp) ∧
      ∀ e ∈ entriesOf s a, e.timestamp ≤ t₀)
    {op : Op} (hle : t₀ ≤ opTime op) :
    ∀ a,
      List.Chain' (fun x y => x ≤ y)
        ((entriesOf (applyOp op s) a).map LedgerEntry.timestamp) ∧
      ∀ e ∈ entriesOf (applyOp op s) a, e.timestamp ≤ opTime op := by
  intro a
  obtain ⟨tail, htail, hstamp⟩ := applyOp_appends hwf op a
  constructor
  · rw [htail, List.map_append]
    refine List.Chain'.append (hinv a).1 (chain'_map_const hstamp) ?_
    intro x hx y hy
    rw [List.getLast?_map] at hx
    rw [List.head?_map] at hy
    obtain ⟨e₁, he₁, hx'⟩ := Option.map_eq_some'.mp hx
    obtain ⟨e₂, he₂, hy'⟩ := Option.map_eq_some'.mp hy
    have h₁ : e₁ ∈ entriesOf s a := List.mem_of_getLast?_eq_some he₁
    have h₂ : e₂ ∈ tail := List.mem_of_mem_head? (by rw [he₂]; rfl)
    rw [← hx', ← hy', hstamp e₂ h₂]
    exact le_trans ((hinv a).2 e₁ h₁) hle
  · intro e he
    rw [htail] at he
    rcases List.mem_append.mp he with h₁ | h₂
    · exact le_trans ((hinv a).2 e h₁) hle
    · rw [hstamp e h₂]

theorem chain_times_foldl :
    ∀ (ops : List Op) (s : BankState) (t₀ : Int), WF s →
      (∀ a,
        List.Chain' (fun x y => x ≤ y)
          ((entriesOf s a).map LedgerEntry.timestamp) ∧
        ∀ e ∈ entriesOf s a, e.timestamp ≤ t₀) →
      List.Chain' (fun x y => x ≤ y) (t₀ :: ops.map opTime) →
      ∀ a,
        List.Chain' (fun x y => x ≤ y)
          ((entriesOf (ops.foldl (fun s op => applyOp op s) s) a).map
            LedgerEntry.timestamp) := by
  intro ops
  induction ops with
  | nil =>
    intro s t₀ hwf hinv _ a
    exact (hinv a).1
  | cons op ops ih =>
    intro s t₀ hwf hinv hchain a
    rw [List.map_cons, List.chain'_cons] at hchain
    rw [List.foldl_cons]
    exact ih (applyOp op s) (opTime op) (WF_applyOp hwf op)
      (times_step hwf hinv hchain.1) hchain.2 a

/-- C9 (amended): each operation only appends to each account's ledger
(existing entries are never mutated or reordered) with every new entry
stamped at the operation's clock reading, so over any run whose clock
readings are non-decreasing a ledger's timestamps are non-decreasing in
append order.  The original strictly-increasing form fails when two
appends share a clock reading — see the counterexample. -/
theorem ledger_append_only_nondecreasing :
    (∀ (op : Op) (s : BankState) (a : String), WF s →
      ∃ tail, entriesOf (applyOp op s) a = entriesOf s a ++ tail ∧
        ∀ e ∈ tail, e.timestamp = opTime op) ∧
    (∀ ops : List Op,
      List.Chain' (fun x y => x ≤ y) (ops.map opTime) →
      ∀ a,
        List.Chain' (fun x y => x ≤ y)
          ((entriesOf (run ops) a).map LedgerEntry.timestamp)) := by
  constructor
  · intro op s a hwf
    exact applyOp_appends hwf op a
  · intro ops hsorted a
    cases ops with
    | nil =>
      show List.Chain' _ ((entriesOf initState a).map _)
      simp [entriesOf, initState]
    | cons op ops =>
      rw [List.map_cons] at hsorted
      refine chain_times_foldl (op :: ops) initState (opTime op)
        WF_initState ?_ ?_ a
      · intro c
        refine ⟨by simp [entriesOf, initState], ?_⟩
        intro e he
        simp [entriesOf, initState] at he
      · rw [List.map_cons, List.chain'_cons]
        exact ⟨le_refl _, hsorted⟩

theorem ledger_append_only_nondecreasing_witness :
    List.Chain' (fun x y => x ≤ y)
      ((entriesOf (run [Op.depositOp 1 "a" 5, Op.depositOp 2 "a" 5])
          "a").map LedgerEntry.timestamp) :=
  ledger_append_only_nondecreasing.2
    [Op.depositOp 1 "a" 5, Op.depositOp 2 "a" 5]
    (by rw [show ([Op.depositOp 1 "a" 5, Op.depositOp 2 "a" 5].map opTime) =
        [(1 : Int), 2] from rfl]
        rw [List.chain'_cons]
        exact ⟨by norm_num, List.chain'_singleton _⟩)
    "a"

/-- C9 counterexample: two deposits performed at the same clock reading
(`datetime.utcnow()` has finite resolution, so consecutive calls can
return equal values) append consecutive entries with equal timestamps;
the per-account ledger is then not strictly increasing in timestamp. -/
theorem ledger_timestamps_not_strictly_increasing :
    ((entriesOf (deposit 5 "a" 1 (deposit 5 "a" 1 initState).2).2 "a").map
        LedgerEntry.timestamp) = [5, 5] ∧
      ¬ List.Chain' (fun x y => x < y)
        ((entriesOf (deposit 5 "a" 1 (deposit 5 "a" 1 initState).2).2
            "a").map LedgerEntry.timestamp) := by
  refine ⟨rfl, ?_⟩
  intro h
  rw [show ((entriesOf (deposit 5 "a" 1 (deposit 5 "a" 1 initState).2).2
      "a").map LedgerEntry.timestamp) = [(5 : Int), 5] from rfl] at h
  rw [List.chain'_cons] at h
  exact absurd h.1 (lt_irrefl 5)

end Banking
